import Mathlib

/-!
Shallow embedding of `perfect_guess.py` (number-guessing CLI game).

Interaction is modelled as a list of input tokens (the successive strings
returned by `input_fn`) together with a trace of I/O events: each call of
`input_fn prompt` is recorded as `Trace.tIn prompt`, each call of
`output_fn` as `Trace.tOut msg` (messages are abstracted to constructors
carrying the data interpolated into the f-strings).  Functions that in
Python block forever waiting for input return `none` here when the token
list is exhausted.  The guessing loop, which in Python is `while True`,
is run on fuel `inputs.length + 1`; since every iteration consumes at
least one input token this fuel is never the reason for a `none` result.
-/

/-- Python `str.strip()` on a character list: drop whitespace on both ends. -/
def pyTrim (cs : List Char) : List Char :=
  ((cs.dropWhile Char.isWhitespace).reverse.dropWhile Char.isWhitespace).reverse

/-- Lower-case one ASCII character (Python `str.lower()` on the game's inputs). -/
def lowerChar (c : Char) : Char :=
  if 'A' ≤ c ∧ c ≤ 'Z' then Char.ofNat (c.toNat + 32) else c

/-- Python `str.lower()` on a character list. -/
def pyLower (cs : List Char) : List Char := cs.map lowerChar

/-- All characters are decimal digits. -/
def isDigits (cs : List Char) : Bool := cs.all Char.isDigit

/-- Decimal value of a digit list (accumulator style). -/
def digitsToNatAux : Nat → List Char → Nat
  | acc, [] => acc
  | acc, c :: rest => digitsToNatAux (acc * 10 + (c.toNat - 48)) rest

/-- Python `int(raw)` on a string: strips whitespace, optional sign, decimal
digits; `none` models the `ValueError` raised on anything else. -/
def pyStrToInt (s : String) : Option Int :=
  match pyTrim s.data with
  | [] => none
  | '+' :: rest =>
    if rest ≠ [] ∧ isDigits rest then some (Int.ofNat (digitsToNatAux 0 rest)) else none
  | '-' :: rest =>
    if rest ≠ [] ∧ isDigits rest then some (-(Int.ofNat (digitsToNatAux 0 rest))) else none
  | cs => if isDigits cs then some (Int.ofNat (digitsToNatAux 0 cs)) else none

/-- The messages the program sends to `output_fn`, abstracted to the data
interpolated into each f-string of `perfect_guess.py`. -/
inductive Msg : Type where
  | invalidNumber                                -- "Invalid input! Please enter numbers only."
  | rangeWarn (lo hi : Int)                      -- "Enter a number between {lo} and {hi}."
  | yesNoError                                   -- "Please enter y/yes or n/no."
  | guessIntro (lo hi : Int)                     -- "Guess the number between {lo} and {hi}"
  | higher                                       -- "Higher number please."
  | lower                                        -- "Lower number please."
  | correct (secret : Int) (attempts : Nat)      -- "Correct! You guessed the number ..."
  | gameOver (maxAttempts : Nat) (secret : Int)  -- "Game Over! ... The correct number was ..."
  | menuHeader                                   -- "Choose Difficulty:"
  | menuItem (key name : String) (lo hi : Int) (attempts : Option Nat)
  | menuCustom                                   -- "4. Custom range"
  | invalidChoice                                -- "Invalid choice. Try again."
  | customWarn                                   -- "Minimum must be <= maximum. Returning to difficulty menu."
  | newBest (name : String) (attempts : Nat)     -- "New best score for {name}: ..."
  | notBest (attempts : Nat) (prev : Int)        -- "Your attempts: ... Best for this difficulty: ..."
  | tryAgain                                     -- "Try again to beat the best score!"
  | goodbye                                      -- "Thanks for playing. Goodbye!"
  | bestHeader                                   -- "Best scores saved:"
  | scoreLine (title : String) (best : Int)      -- "- {title}: {best} attempts"
  deriving DecidableEq

/-- One I/O event: an `input_fn prompt` call or an `output_fn msg` call. -/
inductive Trace : Type where
  | tIn (prompt : String)
  | tOut (m : Msg)
  deriving DecidableEq

/-- The prompt string of attempt `a` inside `play_game`. -/
def attemptPrompt (a : Nat) : String :=
  "Attempt " ++ toString a ++ ": Enter your guess"

/-- `get_valid_number` from `perfect_guess.py`: prompt until the user enters
an integer between `lo` and `hi`.  Returns the value, the unconsumed input
tokens and the I/O trace; `none` when the token list runs out. -/
def get_valid_number (prompt : String) (lo hi : Int) :
    List String → Option (Int × List String × List Trace)
  | [] => none
  | s :: rest =>
    match pyStrToInt s with
    | some v =>
      if lo ≤ v ∧ v ≤ hi then
        some (v, rest, [Trace.tIn prompt])
      else
        (get_valid_number prompt lo hi rest).map
          (fun x => (x.1, x.2.1,
            Trace.tIn prompt :: Trace.tOut (Msg.rangeWarn lo hi) :: x.2.2))
    | none =>
      (get_valid_number prompt lo hi rest).map
        (fun x => (x.1, x.2.1,
          Trace.tIn prompt :: Trace.tOut Msg.invalidNumber :: x.2.2))

/-- Value-and-rest core of `get_valid_number` (the trace and the prompt do not
influence which value is returned nor which tokens are consumed). -/
def gvn_core (lo hi : Int) : List String → Option (Int × List String)
  | [] => none
  | s :: rest =>
    match pyStrToInt s with
    | some v => if lo ≤ v ∧ v ≤ hi then some (v, rest) else gvn_core lo hi rest
    | none => gvn_core lo hi rest

/-- `get_yes_no` from `perfect_guess.py`: y/yes → true, n/no → false
(case-insensitive, stripped), anything else re-prompts. -/
def get_yes_no (prompt : String) :
    List String → Option (Bool × List String × List Trace)
  | [] => none
  | s :: rest =>
    let c := pyLower (pyTrim s.data)
    if c = ['y'] ∨ c = ['y', 'e', 's'] then
      some (true, rest, [Trace.tIn prompt])
    else if c = ['n'] ∨ c = ['n', 'o'] then
      some (false, rest, [Trace.tIn prompt])
    else
      match get_yes_no prompt rest with
      | none => none
      | some (b, r, tr) =>
        some (b, r, Trace.tIn prompt :: Trace.tOut Msg.yesNoError :: tr)

/-- A deterministic model of `random.Random`: a stream of raw draws and a
position into it.  `randint` consumes one draw. -/
structure Rng : Type where
  stream : Nat → Nat
  pos : Nat

/-- Model of `random.Random.randint(lo, hi)`: a value in `[lo, hi]` (when
`lo ≤ hi`) taken from the stream, together with the advanced generator. -/
def Rng.randint (r : Rng) (lo hi : Int) : Int × Rng :=
  (lo + Int.ofNat (r.stream r.pos % (hi - lo + 1).toNat), ⟨r.stream, r.pos + 1⟩)

/-- The `while True` guess loop of `play_game` (lines 111-135): one iteration
increments `attempts`, reads a validated guess, answers higher/lower/correct,
and on a non-winning guess checks the attempt limit.  Structured fuel stands
in for the unbounded loop; each iteration consumes at least one input token,
so fuel `inputs.length + 1` is never exhausted before the input is. -/
def play_loop (secret lo hi : Int) (maxAttempts : Option Nat) :
    Nat → Nat → List String → Option (Nat × Bool × List String × List Trace)
  | 0, _, _ => none
  | fuel + 1, attempts, inputs =>
    let a := attempts + 1
    match get_valid_number (attemptPrompt a) lo hi inputs with
    | none => none
    | some (guess, rest, tr) =>
      let cont : Msg → Option (Nat × Bool × List String × List Trace) := fun hint =>
        let tr2 := tr ++ [Trace.tOut hint]
        match maxAttempts with
        | some m =>
          if a ≥ m then
            some (a, false, rest, tr2 ++ [Trace.tOut (Msg.gameOver m secret)])
          else
            (play_loop secret lo hi maxAttempts fuel a rest).map
              (fun x => (x.1, x.2.1, x.2.2.1, tr2 ++ x.2.2.2))
        | none =>
          (play_loop secret lo hi maxAttempts fuel a rest).map
            (fun x => (x.1, x.2.1, x.2.2.1, tr2 ++ x.2.2.2))
      if guess < secret then cont Msg.higher
      else if guess > secret then cont Msg.lower
      else some (a, true, rest, tr ++ [Trace.tOut (Msg.correct secret a)])

/-- `play_game` from `perfect_guess.py`: `rng = rng or random.Random()` (the
`ambient` argument models the internally created generator used when the
caller supplies none), draw the secret, print the intro, run the guess loop.
Returns `(attempts, won, advanced rng, unconsumed inputs, trace)`. -/
def play_game (lo hi : Int) (maxAttempts : Option Nat) (rngArg : Option Rng)
    (ambient : Rng) (inputs : List String) :
    Option (Nat × Bool × Rng × List String × List Trace) :=
  let r0 := match rngArg with | some r => r | none => ambient
  let secret := (r0.randint lo hi).1
  let r1 := (r0.randint lo hi).2
  match play_loop secret lo hi maxAttempts (inputs.length + 1) 0 inputs with
  | none => none
  | some (attempts, won, rest, tr) =>
    some (attempts, won, r1, rest, Trace.tOut (Msg.guessIntro lo hi) :: tr)

/-- The sequence of validated guesses `get_valid_number` would hand to the
game loop from a given token list. -/
def extract_loop (lo hi : Int) : Nat → List String → List Int
  | 0, _ => []
  | fuel + 1, inputs =>
    match gvn_core lo hi inputs with
    | none => []
    | some (v, rest) => v :: extract_loop lo hi fuel rest

/-- All validated guesses obtainable from `inputs` for range `[lo, hi]`. -/
def extract_guesses (lo hi : Int) (inputs : List String) : List Int :=
  extract_loop lo hi (inputs.length + 1) inputs

/-- Python-dict lookup (`best_score.get(key)`). -/
def dictGet {β : Type} (d : List (String × β)) (k : String) : Option β :=
  match d with
  | [] => none
  | kv :: rest => if kv.1 = k then some kv.2 else dictGet rest k

/-- Python-dict assignment (`best_score[key] = v`): updates in place when the
key exists, otherwise appends — insertion order is preserved. -/
def dictSet (d : List (String × Int)) (k : String) (v : Int) : List (String × Int) :=
  match d with
  | [] => [(k, v)]
  | kv :: rest => if kv.1 = k then (k, v) :: rest else kv :: dictSet rest k v

/-- The best-score update block of `run_interactive` (lines 210-224): on a
win, update and persist only when strictly better than (or in absence of)
the stored best.  The returned `Bool` records whether `safe_save_scores`
was called. -/
def score_update (won : Bool) (attempts_used : Nat) (difficulty_key : String)
    (level_name : String) (best_score : List (String × Int)) :
    List (String × Int) × Bool × List Trace :=
  if won then
    match dictGet best_score difficulty_key with
    | none =>
      (dictSet best_score difficulty_key (attempts_used : Int), true,
        [Trace.tOut (Msg.newBest level_name attempts_used)])
    | some prev =>
      if (attempts_used : Int) < prev then
        (dictSet best_score difficulty_key (attempts_used : Int), true,
          [Trace.tOut (Msg.newBest level_name attempts_used)])
      else
        (best_score, false, [Trace.tOut (Msg.notBest attempts_used prev)])
  else
    (best_score, false, [Trace.tOut Msg.tryAgain])

/-- The Python values a loaded JSON document can contain. -/
inductive JValue : Type where
  | jnull
  | jbool (b : Bool)
  | jint (n : Int)
  | jfloat (num : Int) (den : Nat)   -- the exact rational value of the double, e.g. 3.7 ≈ jfloat 37 10
  | jstr (s : String)
  | jarr (l : List JValue)
  | jobj (entries : List (String × JValue))

/-- Python `int(v)` on a loaded JSON value: ints pass through, bools are 0/1,
floats truncate toward zero, strings are parsed; everything else raises
(`none`). -/
def pyInt : JValue → Option Int
  | .jint n => some n
  | .jbool b => some (if b then 1 else 0)
  | .jfloat n d => some (Int.tdiv n d)
  | .jstr s => pyStrToInt s
  | _ => none

/-- The dict comprehension of `safe_load_scores`:
`{k: int(v) for k, v in data.items()}`; the first value on which `int`
raises aborts the whole comprehension. -/
def entriesToDict : List (String × JValue) → Option (List (String × Int))
  | [] => some []
  | (k, v) :: rest =>
    match pyInt v with
    | none => none
    | some n => (entriesToDict rest).map (fun d => (k, n) :: d)

/-- What the score path can hold, after `path.exists()` / `path.open` /
`json.load` have run: absent, unreadable, unparsable, or a parsed value. -/
inductive FileState : Type where
  | missing
  | unreadable
  | parseError
  | json (v : JValue)

/-- The file system seen through a score-file path. -/
def FS : Type := String → FileState

/-- A Python exception escaping the `try` body of the score-store functions. -/
inductive PyErr : Type where
  | valueError
  | typeError
  | attributeError
  | ioError
  deriving DecidableEq

/-- The `try` body of `safe_load_scores` (lines 31-37): missing file yields
`{}`, otherwise open, `json.load`, and coerce every value with `int`;
`.error` is a raised exception. -/
def load_scores_body (fs : FS) (path : String) :
    Except PyErr (List (String × Int)) :=
  match fs path with
  | .missing => .ok []
  | .unreadable => .error .ioError
  | .parseError => .error .valueError
  | .json v =>
    match v with
    | .jobj entries =>
      match entriesToDict entries with
      | some d => .ok d
      | none => .error .valueError
    | _ => .error .attributeError

/-- `safe_load_scores` from `perfect_guess.py`: the body wrapped in
`try/except Exception: return {}`. -/
def safe_load_scores (fs : FS) (path : String) : List (String × Int) :=
  match load_scores_body fs path with
  | .ok d => d
  | .error _ => []

/-- `safe_save_scores` from `perfect_guess.py`: overwrite the file at `path`
with the serialized record; an unwritable location makes it a silent no-op. -/
def safe_save_scores (scores : List (String × Int)) (writable : String → Bool)
    (fs : FS) (path : String) : FS :=
  if writable path then
    fun p =>
      if p = path then
        FileState.json (.jobj (scores.map (fun kv => (kv.1, JValue.jint kv.2))))
      else fs p
  else fs

/-- One difficulty level, as in `difficulty_presets`. -/
structure Level : Type where
  name : String
  min : Int
  max : Int
  attempts : Option Nat
  deriving DecidableEq

/-- `difficulty_presets` from `perfect_guess.py`. -/
def difficulty_presets : List (String × Level) :=
  [("1", ⟨"Easy", 1, 9, none⟩),
   ("2", ⟨"Medium", 1, 20, some 7⟩),
   ("3", ⟨"Hard", 1, 50, some 5⟩)]

def choicePrompt : String := "Enter your choice (1/2/3/4): "

def minPrompt : String := "Enter minimum (integer): "

def maxPrompt : String := "Enter maximum (integer): "

def playAgainPrompt : String := "Play again? (y/n): "

/-- The menu display plus the choice prompt at the top of each orchestrator
iteration (lines 169-181). -/
def menuTrace : List Trace :=
  Trace.tOut Msg.menuHeader ::
    (difficulty_presets.map
      (fun kv => Trace.tOut (Msg.menuItem kv.1 kv.2.name kv.2.min kv.2.max kv.2.attempts))
    ++ [Trace.tOut Msg.menuCustom, Trace.tIn choicePrompt])

/-- Preset display name for a score key, raw key otherwise (line 232). -/
def titleFor (k : String) : String :=
  match dictGet difficulty_presets k with
  | some l => l.name
  | none => k

/-- The farewell block (lines 227-233): goodbye, then a leaderboard when any
score exists. -/
def farewell (scores : List (String × Int)) : List Trace :=
  Trace.tOut Msg.goodbye ::
    (if scores.isEmpty then []
     else Trace.tOut Msg.bestHeader ::
       scores.map (fun kv => Trace.tOut (Msg.scoreLine (titleFor kv.1) kv.2)))

/-- The outcome of one iteration of the orchestrator's `while True` loop. -/
inductive RoundResult : Type where
  | again (scores : List (String × Int)) (rng : Rng) (rest : List String) (tr : List Trace)
  | quit (scores : List (String × Int)) (rng : Rng) (rest : List String) (tr : List Trace)
  | pyError (e : PyErr)
  | needInput

/-- Lines 201-234 of `run_interactive`: run the session for the chosen level,
update scores, ask to play again. -/
def play_and_update (rng : Rng) (scores : List (String × Int)) (level : Level)
    (key : String) (tr0 : List Trace) (inputs : List String) : RoundResult :=
  match play_game level.min level.max level.attempts (some rng) rng inputs with
  | none => .needInput
  | some (attempts_used, won, rng2, rest, trg) =>
    let upd := score_update won attempts_used key level.name scores
    match get_yes_no playAgainPrompt rest with
    | none => .needInput
    | some (true, rest2, trq) =>
      .again upd.1 rng2 rest2 (tr0 ++ trg ++ upd.2.2 ++ trq)
    | some (false, rest2, trq) =>
      .quit upd.1 rng2 rest2 (tr0 ++ trg ++ upd.2.2 ++ trq ++ farewell upd.1)

/-- One iteration of the `while True` loop of `run_interactive`
(lines 168-234): show the menu, read the choice, configure the level (a
custom range is read with a bare `int(...)`, whose `ValueError` is caught
nowhere inside the loop and becomes `.pyError`), then play and update. -/
def run_round (rng : Rng) (scores : List (String × Int)) :
    List String → RoundResult
  | [] => .needInput
  | choiceRaw :: rest =>
    let choice := String.mk (pyTrim choiceRaw.data)
    if choice = "4" then
      match rest with
      | [] => .needInput
      | minRaw :: rest2 =>
        match pyStrToInt minRaw with
        | none => .pyError .valueError
        | some min_v =>
          match rest2 with
          | [] => .needInput
          | maxRaw :: rest3 =>
            match pyStrToInt maxRaw with
            | none => .pyError .valueError
            | some max_v =>
              if min_v > max_v then
                .again scores rng rest3
                  (menuTrace ++ [Trace.tIn minPrompt, Trace.tIn maxPrompt,
                    Trace.tOut Msg.customWarn])
              else
                play_and_update rng scores ⟨"Custom", min_v, max_v, none⟩
                  ("custom_" ++ toString min_v ++ "_" ++ toString max_v)
                  (menuTrace ++ [Trace.tIn minPrompt, Trace.tIn maxPrompt]) rest3
    else
      match dictGet difficulty_presets choice with
      | some level => play_and_update rng scores level choice menuTrace rest
      | none => .again scores rng rest (menuTrace ++ [Trace.tOut Msg.invalidChoice])

theorem gvn_core_shrink (lo hi : Int) :
    ∀ inputs v rest, gvn_core lo hi inputs = some (v, rest) →
      rest.length < inputs.length := by
  intro inputs
  induction inputs with
  | nil => intro v rest h; simp [gvn_core] at h
  | cons s t ih =>
    intro v rest h
    simp only [gvn_core] at h
    split at h
    · split at h
      · simp only [Option.some.injEq, Prod.mk.injEq] at h
        obtain ⟨rfl, rfl⟩ := h
        simp
      · exact Nat.lt_succ_of_lt (ih v rest h)
    · exact Nat.lt_succ_of_lt (ih v rest h)

theorem gvn_to_core (p : String) (lo hi : Int) :
    ∀ inputs, (get_valid_number p lo hi inputs).map (fun x => (x.1, x.2.1))
      = gvn_core lo hi inputs := by
  intro inputs
  induction inputs with
  | nil => simp [get_valid_number, gvn_core]
  | cons s t ih =>
    simp only [get_valid_number, gvn_core]
    split
    · split
      · simp
      · rw [← ih]
        cases get_valid_number p lo hi t with
        | none => simp
        | some x => simp
    · rw [← ih]
      cases get_valid_number p lo hi t with
      | none => simp
      | some x => simp

theorem gvn_shrink (p : String) (lo hi : Int) (inputs : List String)
    (v : Int) (rest : List String) (tr : List Trace)
    (h : get_valid_number p lo hi inputs = some (v, rest, tr)) :
    rest.length < inputs.length := by
  apply gvn_core_shrink lo hi inputs v rest
  rw [← gvn_to_core p, h]
  rfl

theorem gvn_of_core (p : String) (lo hi : Int) (inputs : List String)
    (v : Int) (rest : List String) (h : gvn_core lo hi inputs = some (v, rest)) :
    ∃ tr, get_valid_number p lo hi inputs = some (v, rest, tr) := by
  have h2 := gvn_to_core p lo hi inputs
  rw [h] at h2
  cases hg : get_valid_number p lo hi inputs with
  | none => rw [hg] at h2; simp at h2
  | some x =>
    obtain ⟨xv, xr, xtr⟩ := x
    rw [hg] at h2
    simp only [Option.map_some', Option.some.injEq, Prod.mk.injEq] at h2
    obtain ⟨h3, h4⟩ := h2
    subst h3; subst h4
    exact ⟨xtr, rfl⟩

theorem gvn_none_of_core (p : String) (lo hi : Int) (inputs : List String)
    (h : gvn_core lo hi inputs = none) :
    get_valid_number p lo hi inputs = none := by
  have h2 := gvn_to_core p lo hi inputs
  rw [h] at h2
  cases hg : get_valid_number p lo hi inputs with
  | none => rfl
  | some x => rw [hg] at h2; simp at h2

theorem gvn_trace_shape (p : String) (lo hi : Int) :
    ∀ inputs v rest tr, get_valid_number p lo hi inputs = some (v, rest, tr) →
      ∀ t ∈ tr, t = Trace.tIn p ∨ ∃ m, t = Trace.tOut m := by
  intro inputs
  induction inputs with
  | nil => intro v rest tr h; simp [get_valid_number] at h
  | cons s rest0 ih =>
    intro v rest tr h
    simp only [get_valid_number] at h
    split at h
    · split at h
      · simp only [Option.some.injEq, Prod.mk.injEq] at h
        obtain ⟨rfl, rfl, rfl⟩ := h
        intro t ht
        simp only [List.mem_singleton] at ht
        exact Or.inl ht
      · obtain ⟨⟨xv, xr, xtr⟩, hrec, hx⟩ := Option.map_eq_some'.mp h
        simp only at hx
        obtain ⟨rfl, rfl, rfl⟩ := Prod.mk.injEq .. ▸ hx
        intro t ht
        simp only [List.mem_cons] at ht
        rcases ht with rfl | rfl | ht
        · exact Or.inl rfl
        · exact Or.inr ⟨_, rfl⟩
        · exact ih _ _ _ hrec t ht
    · obtain ⟨⟨xv, xr, xtr⟩, hrec, hx⟩ := Option.map_eq_some'.mp h
      simp only at hx
      obtain ⟨rfl, rfl, rfl⟩ := Prod.mk.injEq .. ▸ hx
      intro t ht
      simp only [List.mem_cons] at ht
      rcases ht with rfl | rfl | ht
      · exact Or.inl rfl
      · exact Or.inr ⟨_, rfl⟩
      · exact ih _ _ _ hrec t ht

theorem gvn_bounds (p : String) (lo hi : Int) :
    ∀ inputs v rest tr, get_valid_number p lo hi inputs = some (v, rest, tr) →
      lo ≤ v ∧ v ≤ hi := by
  intro inputs
  induction inputs with
  | nil => intro v rest tr h; simp [get_valid_number] at h
  | cons s rest0 ih =>
    intro v rest tr h
    simp only [get_valid_number] at h
    split at h
    · split at h
      next hin =>
        simp only [Option.some.injEq, Prod.mk.injEq] at h
        obtain ⟨rfl, rfl, rfl⟩ := h
        exact hin
      · obtain ⟨⟨xv, xr, xtr⟩, hrec, hx⟩ := Option.map_eq_some'.mp h
        simp only at hx
        obtain ⟨rfl, rfl, rfl⟩ := Prod.mk.injEq .. ▸ hx
        exact ih _ _ _ hrec
    · obtain ⟨⟨xv, xr, xtr⟩, hrec, hx⟩ := Option.map_eq_some'.mp h
      simp only at hx
      obtain ⟨rfl, rfl, rfl⟩ := Prod.mk.injEq .. ▸ hx
      exact ih _ _ _ hrec

/-- Claim C1: for every range with `minimum ≤ maximum` and every integer `g`
in range, if the session's secret equals `g` and the player's first validated
guess is `g` (a token parsing to `g`), then `play_game` returns
`attempts = 1`, `won = true`; in particular when `minimum = maximum` the
first valid guess always wins. -/
theorem C1_first_guess_wins :
    (∀ (lo hi g : Int) (s : String) (rng ambient : Rng) (maxAttempts : Option Nat)
        (rest : List String),
        pyStrToInt s = some g → lo ≤ g → g ≤ hi → (rng.randint lo hi).1 = g →
        play_game lo hi maxAttempts (some rng) ambient (s :: rest)
          = some (1, true, (rng.randint lo hi).2, rest,
              [Trace.tOut (Msg.guessIntro lo hi), Trace.tIn (attemptPrompt 1),
               Trace.tOut (Msg.correct g 1)]))
    ∧ (∀ (lo g : Int) (s : String) (rng ambient : Rng) (maxAttempts : Option Nat)
        (rest : List String),
        pyStrToInt s = some g → lo ≤ g → g ≤ lo →
        play_game lo lo maxAttempts (some rng) ambient (s :: rest)
          = some (1, true, (rng.randint lo lo).2, rest,
              [Trace.tOut (Msg.guessIntro lo lo), Trace.tIn (attemptPrompt 1),
               Trace.tOut (Msg.correct g 1)])) := by
  have key : ∀ (lo hi g : Int) (s : String) (rng ambient : Rng)
      (maxAttempts : Option Nat) (rest : List String),
      pyStrToInt s = some g → lo ≤ g → g ≤ hi → (rng.randint lo hi).1 = g →
      play_game lo hi maxAttempts (some rng) ambient (s :: rest)
        = some (1, true, (rng.randint lo hi).2, rest,
            [Trace.tOut (Msg.guessIntro lo hi), Trace.tIn (attemptPrompt 1),
             Trace.tOut (Msg.correct g 1)]) := by
    intro lo hi g s rng ambient maxAttempts rest h1 h2 h3 h4
    simp only [play_game, List.length_cons, play_loop, get_valid_number, h1, h4,
      Nat.zero_add]
    rw [if_pos ⟨h2, h3⟩]
    simp only [lt_irrefl, if_false, gt_iff_lt, List.singleton_append]
  constructor
  · exact key
  · intro lo g s rng ambient maxAttempts rest h1 h2 h3
    have hg : g = lo := le_antisymm h3 h2
    subst hg
    have hsec : (rng.randint g g).1 = g := by
      simp [Rng.randint]
    exact key g g g s rng ambient maxAttempts rest h1 le_rfl le_rfl hsec

/-- Claim C3: `get_valid_number` only returns integers within `[lo, hi]`,
returns immediately on the first in-range token, loops with an error message
on non-numeric or out-of-range tokens, which are never returned, and — since
the game's attempt counter is advanced once per `get_valid_number` call — a
rejected token never changes the attempt count or outcome of the game loop. -/
theorem C3_validated_reader :
    (∀ (p : String) (lo hi : Int) (inputs : List String) (v : Int)
        (rest : List String) (tr : List Trace),
        get_valid_number p lo hi inputs = some (v, rest, tr) → lo ≤ v ∧ v ≤ hi)
    ∧ (∀ (p : String) (lo hi : Int) (s : String) (rest : List String) (v : Int),
        pyStrToInt s = some v → lo ≤ v → v ≤ hi →
        get_valid_number p lo hi (s :: rest) = some (v, rest, [Trace.tIn p]))
    ∧ (∀ (p : String) (lo hi : Int) (s : String) (rest : List String),
        pyStrToInt s = none →
        get_valid_number p lo hi (s :: rest)
          = (get_valid_number p lo hi rest).map
              (fun x => (x.1, x.2.1,
                Trace.tIn p :: Trace.tOut Msg.invalidNumber :: x.2.2)))
    ∧ (∀ (p : String) (lo hi : Int) (s : String) (rest : List String) (v : Int),
        pyStrToInt s = some v → ¬(lo ≤ v ∧ v ≤ hi) →
        get_valid_number p lo hi (s :: rest)
          = (get_valid_number p lo hi rest).map
              (fun x => (x.1, x.2.1,
                Trace.tIn p :: Trace.tOut (Msg.rangeWarn lo hi) :: x.2.2)))
    ∧ (∀ (secret lo hi : Int) (maxAttempts : Option Nat) (fuel attempts : Nat)
        (j : String) (inputs : List String),
        pyStrToInt j = none →
        (play_loop secret lo hi maxAttempts (fuel + 1) attempts (j :: inputs)).map
            (fun x => (x.1, x.2.1))
          = (play_loop secret lo hi maxAttempts (fuel + 1) attempts inputs).map
              (fun x => (x.1, x.2.1))) := by
  refine ⟨?_, ?_, ?_, ?_, ?_⟩
  · intro p lo hi inputs v rest tr h
    exact gvn_bounds p lo hi inputs v rest tr h
  · intro p lo hi s rest v h1 h2 h3
    simp only [get_valid_number, h1]
    rw [if_pos ⟨h2, h3⟩]
  · intro p lo hi s rest h
    simp only [get_valid_number, h]
  · intro p lo hi s rest v h1 h2
    simp only [get_valid_number, h1]
    rw [if_neg h2]
  · intro secret lo hi maxAttempts fuel attempts j inputs hj
    simp only [play_loop, get_valid_number, hj]
    cases hg : get_valid_number (attemptPrompt (attempts + 1)) lo hi inputs with
    | none => simp
    | some x =>
      obtain ⟨g, rest, tr⟩ := x
      simp only [Option.map_some']
      by_cases h1 : g < secret
      · simp only [if_pos h1]
        cases maxAttempts with
        | none =>
          cases play_loop secret lo hi none fuel (attempts + 1) rest <;> simp
        | some m =>
          by_cases h2 : attempts + 1 ≥ m
          · simp [h2]
          · simp only [if_neg h2]
            cases play_loop secret lo hi (some m) fuel (attempts + 1) rest <;> simp
      · simp only [if_neg h1]
        by_cases h2 : g > secret
        · simp only [if_pos h2]
          cases maxAttempts with
          | none =>
            cases play_loop secret lo hi none fuel (attempts + 1) rest <;> simp
          | some m =>
            by_cases h3 : attempts + 1 ≥ m
            · simp [h3]
            · simp only [if_neg h3]
              cases play_loop secret lo hi (some m) fuel (attempts + 1) rest <;> simp
        · simp [h2]

theorem extract_loop_cons (lo hi : Int) (fuel : Nat) (inputs : List String)
    (g : Int) (rest : List String) (hc : gvn_core lo hi inputs = some (g, rest)) :
    extract_loop lo hi (fuel + 1) inputs = g :: extract_loop lo hi fuel rest := by
  simp [extract_loop, hc]

theorem play_loop_limit_loss (lo hi secret : Int) (N : Nat) :
    ∀ fuel inputs attempts, inputs.length < fuel → attempts < N →
      (∀ g ∈ extract_loop lo hi fuel inputs, g ≠ secret) →
      N ≤ attempts + (extract_loop lo hi fuel inputs).length →
      ∃ rest2 tr2,
        play_loop secret lo hi (some N) fuel attempts inputs
          = some (N, false, rest2, tr2)
        ∧ Trace.tOut (Msg.gameOver N secret) ∈ tr2
        ∧ ∀ t ∈ tr2, (∃ j, 1 ≤ j ∧ j ≤ N ∧ t = Trace.tIn (attemptPrompt j))
            ∨ ∃ m, t = Trace.tOut m := by
  intro fuel
  induction fuel with
  | zero => intro inputs attempts hlen; simp at hlen
  | succ fuel ih =>
    intro inputs attempts hlen hlt hne hN
    cases hc : gvn_core lo hi inputs with
    | none =>
      exfalso
      have : extract_loop lo hi (fuel + 1) inputs = [] := by simp [extract_loop, hc]
      rw [this] at hN
      simp at hN
      omega
    | some x =>
      obtain ⟨g, rest⟩ := x
      have hx := extract_loop_cons lo hi fuel inputs g rest hc
      obtain ⟨tr, hgvn⟩ := gvn_of_core (attemptPrompt (attempts + 1)) lo hi inputs g rest hc
      have hg_ne : g ≠ secret := by
        apply hne
        rw [hx]
        exact List.mem_cons_self ..
      have hshape0 := gvn_trace_shape (attemptPrompt (attempts + 1)) lo hi inputs g rest tr hgvn
      have hrest : rest.length < fuel := by
        have := gvn_core_shrink lo hi inputs g rest hc
        omega
      by_cases hend : attempts + 1 ≥ N
      · -- this was the last allowed attempt: the limit branch fires
        have hNeq : attempts + 1 = N := by omega
        rcases lt_or_gt_of_ne hg_ne with hcmp | hcmp
        · refine ⟨rest, tr ++ [Trace.tOut Msg.higher] ++ [Trace.tOut (Msg.gameOver N secret)], ?_, ?_, ?_⟩
          · simp only [play_loop, hgvn, if_pos hcmp, ge_iff_le]
            rw [if_pos hend, hNeq]
          · simp
          · intro t ht
            simp only [List.append_assoc, List.mem_append, List.mem_singleton] at ht
            rcases ht with ht | ht | ht
            · rcases hshape0 t ht with rfl | ⟨m, rfl⟩
              · exact Or.inl ⟨attempts + 1, by omega, by omega, rfl⟩
              · exact Or.inr ⟨m, rfl⟩
            · exact Or.inr ⟨_, ht⟩
            · exact Or.inr ⟨_, ht⟩
        · refine ⟨rest, tr ++ [Trace.tOut Msg.lower] ++ [Trace.tOut (Msg.gameOver N secret)], ?_, ?_, ?_⟩
          · simp only [play_loop, hgvn, if_neg (asymm hcmp), if_pos hcmp, ge_iff_le]
            rw [if_pos hend, hNeq]
          · simp
          · intro t ht
            simp only [List.append_assoc, List.mem_append, List.mem_singleton] at ht
            rcases ht with ht | ht | ht
            · rcases hshape0 t ht with rfl | ⟨m, rfl⟩
              · exact Or.inl ⟨attempts + 1, by omega, by omega, rfl⟩
              · exact Or.inr ⟨m, rfl⟩
            · exact Or.inr ⟨_, ht⟩
            · exact Or.inr ⟨_, ht⟩
      · -- more attempts remain: recurse
        have hlt2 : attempts + 1 < N := by omega
        have hne2 : ∀ g' ∈ extract_loop lo hi fuel rest, g' ≠ secret := by
          intro g' hg'
          apply hne
          rw [hx]
          exact List.mem_cons_of_mem _ hg'
        have hN2 : N ≤ (attempts + 1) + (extract_loop lo hi fuel rest).length := by
          rw [hx] at hN
          simp only [List.length_cons] at hN
          omega
        obtain ⟨rest2, tr2, hpl, hmem, hshape⟩ := ih rest (attempts + 1) hrest hlt2 hne2 hN2
        have hstep : ∀ hint : Msg,
            ∀ t ∈ tr ++ [Trace.tOut hint] ++ tr2,
              (∃ j, 1 ≤ j ∧ j ≤ N ∧ t = Trace.tIn (attemptPrompt j))
                ∨ ∃ m, t = Trace.tOut m := by
          intro hint t ht
          simp only [List.append_assoc, List.mem_append, List.mem_singleton] at ht
          rcases ht with ht | ht | ht
          · rcases hshape0 t ht with rfl | ⟨m, rfl⟩
            · exact Or.inl ⟨attempts + 1, by omega, by omega, rfl⟩
            · exact Or.inr ⟨m, rfl⟩
          · exact Or.inr ⟨_, ht⟩
          · exact hshape t ht
        rcases lt_or_gt_of_ne hg_ne with hcmp | hcmp
        · refine ⟨rest2, tr ++ [Trace.tOut Msg.higher] ++ tr2, ?_, ?_, hstep Msg.higher⟩
          · simp only [play_loop, hgvn, if_pos hcmp, ge_iff_le]
            rw [if_neg hend]
            simp [hpl]
          · simp only [List.append_assoc, List.mem_append]
            exact Or.inr (Or.inr hmem)
        · refine ⟨rest2, tr ++ [Trace.tOut Msg.lower] ++ tr2, ?_, ?_, hstep Msg.lower⟩
          · simp only [play_loop, hgvn, if_neg (asymm hcmp), if_pos hcmp, ge_iff_le]
            rw [if_neg hend]
            simp [hpl]
          · simp only [List.append_assoc, List.mem_append]
            exact Or.inr (Or.inr hmem)

theorem play_loop_unlimited_none (lo hi secret : Int) :
    ∀ fuel inputs attempts, inputs.length < fuel →
      (∀ g ∈ extract_loop lo hi fuel inputs, g ≠ secret) →
      play_loop secret lo hi none fuel attempts inputs = none := by
  intro fuel
  induction fuel with
  | zero => intro inputs attempts hlen; simp at hlen
  | succ fuel ih =>
    intro inputs attempts hlen hne
    cases hc : gvn_core lo hi inputs with
    | none =>
      have hg := gvn_none_of_core (attemptPrompt (attempts + 1)) lo hi inputs hc
      simp [play_loop, hg]
    | some x =>
      obtain ⟨g, rest⟩ := x
      have hx := extract_loop_cons lo hi fuel inputs g rest hc
      obtain ⟨tr, hgvn⟩ := gvn_of_core (attemptPrompt (attempts + 1)) lo hi inputs g rest hc
      have hg_ne : g ≠ secret := by
        apply hne
        rw [hx]
        exact List.mem_cons_self ..
      have hrest : rest.length < fuel := by
        have := gvn_core_shrink lo hi inputs g rest hc
        omega
      have hne2 : ∀ g' ∈ extract_loop lo hi fuel rest, g' ≠ secret := by
        intro g' hg'
        apply hne
        rw [hx]
        exact List.mem_cons_of_mem _ hg'
      have hrec := ih rest (attempts + 1) hrest hne2
      rcases lt_or_gt_of_ne hg_ne with hcmp | hcmp
      · simp [play_loop, hgvn, if_pos hcmp, hrec]
      · simp [play_loop, hgvn, if_neg (asymm hcmp), if_pos hcmp, hrec]

/-- Claim C2: with `attempt_limit = N ≥ 1` and a token stream whose validated
guesses never equal the secret but supply at least `N` guesses, `play_game`
returns `won = false` and `attempts = N` exactly, the loss message reveals
the secret, and every guess prompt issued is for an attempt in `[1, N]`;
with `attempt_limit` absent the loop never returns on such a stream (its
only exit is a correct guess). -/
theorem C2_attempt_limit :
    (∀ (lo hi : Int) (N : Nat) (rng ambient : Rng) (inputs : List String),
        1 ≤ N →
        (∀ g ∈ extract_guesses lo hi inputs, g ≠ (rng.randint lo hi).1) →
        N ≤ (extract_guesses lo hi inputs).length →
        ∃ rest tr,
          play_game lo hi (some N) (some rng) ambient inputs
            = some (N, false, (rng.randint lo hi).2, rest, tr)
          ∧ Trace.tOut (Msg.gameOver N ((rng.randint lo hi).1)) ∈ tr
          ∧ ∀ t ∈ tr, (∃ j, 1 ≤ j ∧ j ≤ N ∧ t = Trace.tIn (attemptPrompt j))
              ∨ ∃ m, t = Trace.tOut m)
    ∧ (∀ (lo hi : Int) (rng ambient : Rng) (inputs : List String),
        (∀ g ∈ extract_guesses lo hi inputs, g ≠ (rng.randint lo hi).1) →
        play_game lo hi none (some rng) ambient inputs = none) := by
  constructor
  · intro lo hi N rng ambient inputs hN hne hlen
    obtain ⟨rest, tr, hpl, hmem, hshape⟩ :=
      play_loop_limit_loss lo hi ((rng.randint lo hi).1) N (inputs.length + 1)
        inputs 0 (by omega) (by omega) hne (by simpa using hlen)
    refine ⟨rest, Trace.tOut (Msg.guessIntro lo hi) :: tr, ?_, ?_, ?_⟩
    · simp only [play_game, hpl]
    · exact List.mem_cons_of_mem _ hmem
    · intro t ht
      rcases List.mem_cons.mp ht with rfl | ht
      · exact Or.inr ⟨_, rfl⟩
      · exact hshape t ht
  · intro lo hi rng ambient inputs hne
    have hpl := play_loop_unlimited_none lo hi ((rng.randint lo hi).1)
      (inputs.length + 1) inputs 0 (by omega) hne
    simp only [play_game, hpl]

/-- Claim C4: the best-score record is mutated and persisted only on a won
session whose attempt count strictly improves on (or fills in) the stored
value for that difficulty key; a lost session, or a won one that does not
strictly improve, leaves the record untouched, and an update never changes
any other key. -/
theorem C4_score_update_invariant :
    (∀ (a : Nat) (key name : String) (d : List (String × Int)),
        score_update false a key name d = (d, false, [Trace.tOut Msg.tryAgain]))
    ∧ (∀ (a : Nat) (key name : String) (d : List (String × Int)) (prev : Int),
        dictGet d key = some prev → ¬((a : Int) < prev) →
        score_update true a key name d
          = (d, false, [Trace.tOut (Msg.notBest a prev)]))
    ∧ (∀ (a : Nat) (key name : String) (d : List (String × Int)),
        dictGet d key = none →
        score_update true a key name d
          = (dictSet d key (a : Int), true, [Trace.tOut (Msg.newBest name a)]))
    ∧ (∀ (a : Nat) (key name : String) (d : List (String × Int)) (prev : Int),
        dictGet d key = some prev → (a : Int) < prev →
        score_update true a key name d
          = (dictSet d key (a : Int), true, [Trace.tOut (Msg.newBest name a)]))
    ∧ (∀ (d : List (String × Int)) (key k2 : String) (v : Int),
        k2 ≠ key → dictGet (dictSet d key v) k2 = dictGet d k2) := by
  refine ⟨?_, ?_, ?_, ?_, ?_⟩
  · intro a key name d
    simp [score_update]
  · intro a key name d prev h1 h2
    simp [score_update, h1, h2]
  · intro a key name d h1
    simp [score_update, h1]
  · intro a key name d prev h1 h2
    simp [score_update, h1, h2]
  · intro d key k2 v hne
    induction d with
    | nil =>
      simp only [dictSet, dictGet]
      rw [if_neg (fun h => hne h.symm)]
    | cons kv rest ih =>
      simp only [dictSet]
      by_cases h1 : kv.1 = key
      · rw [if_pos h1]
        simp only [dictGet]
        rw [if_neg (fun h => hne h.symm), if_neg (h1 ▸ fun h => hne h.symm)]
      · rw [if_neg h1]
        simp only [dictGet]
        by_cases h2 : kv.1 = k2
        · rw [if_pos h2, if_pos h2]
        · rw [if_neg h2, if_neg h2]
          exact ih

/-- Claim C5 is contradicted by the code: the custom-range bounds are read
with a bare `int(input_fn(...))` (lines 185-186 of `perfect_guess.py`),
outside any `try/except ValueError`, so a non-integer token entered for the
custom minimum raises an uncaught `ValueError` out of the orchestrator loop
instead of being recovered by re-prompting. -/
theorem C5_counterexample :
    run_round ⟨fun _ => 0, 0⟩ [] ["4", "abc"] = .pyError .valueError := by
  rfl

/-- Claim C5 amended: an input-format error during guess entry is recovered
locally by `get_valid_number` (same value and consumed input as without the
bad token), but a non-integer token supplied for the custom range's minimum
propagates a `ValueError` that aborts the orchestrator round. -/
theorem C5_format_error_recovery :
    (∀ (p : String) (lo hi : Int) (s : String) (rest : List String),
        pyStrToInt s = none →
        (get_valid_number p lo hi (s :: rest)).map (fun x => (x.1, x.2.1))
          = (get_valid_number p lo hi rest).map (fun x => (x.1, x.2.1)))
    ∧ (∀ (rng : Rng) (scores : List (String × Int)) (c s : String)
          (rest : List String),
        String.mk (pyTrim c.data) = "4" → pyStrToInt s = none →
        run_round rng scores (c :: s :: rest) = .pyError .valueError) := by
  constructor
  · intro p lo hi s rest h
    simp only [get_valid_number, h]
    cases get_valid_number p lo hi rest with
    | none => rfl
    | some x => rfl
  · intro rng scores c s rest hc hs
    simp only [run_round, hc, if_true, hs]

theorem C5_format_error_recovery_witness :
    run_round ⟨fun _ => 0, 0⟩ [("1", 2)] ["4", "x", "9"] = .pyError .valueError :=
  C5_format_error_recovery.2 ⟨fun _ => 0, 0⟩ [("1", 2)] "4" "x" ["9"] rfl rfl

/-- Claim C6 is refuted on the code: `play_game` line 105 reads
`rng = rng or random.Random()`, so when the caller supplies no generator one
IS created internally, and two sessions given the same (absent) random
source and identical inputs can produce different outcomes — here the
internally created generator (`ambient`) differs and the outcome flips. -/
theorem C6_counterexample :
    (play_game 1 10 none none ⟨fun _ => 2, 0⟩ ["3"]).map (fun x => (x.1, x.2.1))
      ≠ (play_game 1 10 none none ⟨fun _ => 4, 0⟩ ["3"]).map (fun x => (x.1, x.2.1)) := by
  decide

/-- Claim C6 amended: when the caller supplies a random source the session
uses it exclusively (a fresh source is created only when none is supplied):
the outcome is independent of the ambient generator, and the secret drawn
from the supplied source lies in `[minimum, maximum]` whenever
`minimum ≤ maximum`, so two sessions given the same supplied source and
equal input sequences produce equal outcomes. -/
theorem C6_supplied_rng_deterministic :
    (∀ (lo hi : Int) (maxAttempts : Option Nat) (rng a1 a2 : Rng)
        (inputs : List String),
        play_game lo hi maxAttempts (some rng) a1 inputs
          = play_game lo hi maxAttempts (some rng) a2 inputs)
    ∧ (∀ (lo hi : Int) (rng : Rng), lo ≤ hi →
        lo ≤ (rng.randint lo hi).1 ∧ (rng.randint lo hi).1 ≤ hi) := by
  constructor
  · intro lo hi maxAttempts rng a1 a2 inputs
    rfl
  · intro lo hi rng h
    simp only [Rng.randint]
    have hpos : 0 < (hi - lo + 1).toNat := by omega
    have hmod : rng.stream rng.pos % (hi - lo + 1).toNat < (hi - lo + 1).toNat :=
      Nat.mod_lt _ hpos
    generalize rng.stream rng.pos % (hi - lo + 1).toNat = k at hmod ⊢
    simp only [Int.ofNat_eq_natCast]
    constructor <;> omega

theorem C6_supplied_rng_deterministic_witness :
    1 ≤ (Rng.randint ⟨fun _ => 5, 0⟩ 1 10).1
      ∧ (Rng.randint ⟨fun _ => 5, 0⟩ 1 10).1 ≤ 10 :=
  C6_supplied_rng_deterministic.2 1 10 ⟨fun _ => 5, 0⟩ (by decide)

/-- Claim C7: `safe_load_scores` never lets an error escape: whenever the
`try` body raises (missing handled separately, unreadable file, invalid
JSON, wrong shape, unconvertible values) the result is the empty record;
in particular a file of invalid JSON loads as the empty mapping, and a
non-empty result only ever comes from a fully successful load. -/
theorem C7_load_never_fails :
    (∀ (fs : FS) (path : String) (e : PyErr),
        load_scores_body fs path = .error e → safe_load_scores fs path = [])
    ∧ (∀ (fs : FS) (path : String), fs path = .parseError →
        safe_load_scores fs path = [])
    ∧ (∀ (fs : FS) (path : String),
        safe_load_scores fs path = []
          ∨ load_scores_body fs path = .ok (safe_load_scores fs path)) := by
  refine ⟨?_, ?_, ?_⟩
  · intro fs path e h
    simp [safe_load_scores, h]
  · intro fs path h
    simp [safe_load_scores, load_scores_body, h]
  · intro fs path
    cases h : load_scores_body fs path with
    | ok d => exact Or.inr (by simp [safe_load_scores, h])
    | error e => exact Or.inl (by simp [safe_load_scores, h])

theorem C7_load_never_fails_witness :
    safe_load_scores (fun _ => FileState.parseError) "loc" = [] :=
  C7_load_never_fails.2.1 (fun _ => FileState.parseError) "loc" rfl

theorem entriesToDict_jint (scores : List (String × Int)) :
    entriesToDict (scores.map (fun kv => (kv.1, JValue.jint kv.2))) = some scores := by
  induction scores with
  | nil => rfl
  | cons kv rest ih => simp [entriesToDict, pyInt, ih]

/-- Claim C8: saving a record to a writable location and loading it back
reproduces the record exactly; the saved content replaces the previous file
content entirely (it does not depend on what was stored before); and loading
the same unmodified file twice yields identical mappings. -/
theorem C8_save_load_round_trip :
    ∀ (scores : List (String × Int)) (writable : String → Bool) (fs fs2 : FS)
      (path : String),
      (∀ kv ∈ scores, 0 ≤ kv.2) → writable path = true →
      safe_load_scores (safe_save_scores scores writable fs path) path = scores
      ∧ safe_save_scores scores writable fs path path
          = safe_save_scores scores writable fs2 path path
      ∧ safe_load_scores (safe_save_scores scores writable fs path) path
          = safe_load_scores (safe_save_scores scores writable fs path) path := by
  intro scores writable fs fs2 path hnn hw
  have hsv : safe_save_scores scores writable fs path path
      = FileState.json (.jobj (scores.map fun kv => (kv.1, JValue.jint kv.2))) := by
    simp [safe_save_scores, hw]
  refine ⟨?_, ?_, rfl⟩
  · simp [safe_load_scores, load_scores_body, hsv, entriesToDict_jint]
  · rw [hsv]
    simp [safe_save_scores, hw]

theorem C8_save_load_round_trip_witness :
    safe_load_scores
        (safe_save_scores [("1", 3), ("2", 5)] (fun _ => true)
          (fun _ => FileState.missing) "loc") "loc"
      = [("1", 3), ("2", 5)] :=
  (C8_save_load_round_trip [("1", 3), ("2", 5)] (fun _ => true)
    (fun _ => FileState.missing) (fun _ => FileState.missing) "loc"
    (by decide) rfl).1

/-- Claim C9: choosing the custom-range option and supplying integer bounds
with minimum > maximum makes the orchestrator emit the warning and go back
to the menu: the round ends in `again` with the score record, the random
generator (no secret drawn) and the remaining input untouched, and no game
session trace. -/
theorem C9_custom_range_rejected :
    ∀ (rng : Rng) (scores : List (String × Int)) (c s1 s2 : String)
      (m1 m2 : Int) (rest : List String),
      String.mk (pyTrim c.data) = "4" →
      pyStrToInt s1 = some m1 → pyStrToInt s2 = some m2 → m1 > m2 →
      run_round rng scores (c :: s1 :: s2 :: rest)
        = .again scores rng rest
            (menuTrace ++ [Trace.tIn minPrompt, Trace.tIn maxPrompt,
              Trace.tOut Msg.customWarn]) := by
  intro rng scores c s1 s2 m1 m2 rest hc h1 h2 hgt
  simp only [run_round, hc, if_true, h1, h2]
  rw [if_pos hgt]

theorem C9_custom_range_rejected_witness :
    run_round ⟨fun _ => 0, 0⟩ [] ["4", "10", "5"]
      = .again [] ⟨fun _ => 0, 0⟩ []
          (menuTrace ++ [Trace.tIn minPrompt, Trace.tIn maxPrompt,
            Trace.tOut Msg.customWarn]) :=
  C9_custom_range_rejected ⟨fun _ => 0, 0⟩ [] "4" "10" "5" 10 5 [] rfl
    (by decide) (by decide) (by decide)

/-- Claim C10: `safe_load_scores` coerces each stored value with `int(...)`
rather than requiring a JSON integer: numeric strings parse and floats
truncate toward zero, while the whole load falls back to the empty record
exactly when some value fails the conversion. -/
theorem C10_int_coercion :
    (∀ (fs : FS) (path : String) (entries : List (String × JValue))
        (d : List (String × Int)),
        fs path = .json (.jobj entries) → entriesToDict entries = some d →
        safe_load_scores fs path = d)
    ∧ (∀ (fs : FS) (path : String) (entries : List (String × JValue)),
        fs path = .json (.jobj entries) → entriesToDict entries = none →
        safe_load_scores fs path = [])
    ∧ safe_load_scores (fun _ => .json (.jobj [("1", .jstr "3")])) "p" = [("1", 3)]
    ∧ safe_load_scores (fun _ => .json (.jobj [("1", .jfloat 37 10)])) "p" = [("1", 3)]
    ∧ safe_load_scores (fun _ => .json (.jobj [("1", .jstr "abc")])) "p" = [] := by
  refine ⟨?_, ?_, by decide, by decide, by decide⟩
  · intro fs path entries d h1 h2
    simp [safe_load_scores, load_scores_body, h1, h2]
  · intro fs path entries h1 h2
    simp [safe_load_scores, load_scores_body, h1, h2]

theorem C10_int_coercion_witness :
    safe_load_scores (fun _ => FileState.json (.jobj [("2", .jfloat 29 10)])) "q"
      = [("2", 2)] :=
  C10_int_coercion.1 (fun _ => FileState.json (.jobj [("2", .jfloat 29 10)])) "q"
    [("2", .jfloat 29 10)] [("2", 2)] rfl (by decide)

theorem C1_first_guess_wins_witness :
    play_game 1 10 none (some ⟨fun _ => 4, 0⟩) ⟨fun _ => 0, 0⟩ ["5"]
      = some (1, true, (Rng.randint ⟨fun _ => 4, 0⟩ 1 10).2, [],
          [Trace.tOut (Msg.guessIntro 1 10), Trace.tIn (attemptPrompt 1),
           Trace.tOut (Msg.correct 5 1)]) :=
  C1_first_guess_wins.1 1 10 5 "5" ⟨fun _ => 4, 0⟩ ⟨fun _ => 0, 0⟩ none []
    (by decide) (by decide) (by decide) (by decide)

theorem C2_attempt_limit_witness :
    ∃ rest tr,
      play_game 1 10 (some 2) (some ⟨fun _ => 4, 0⟩) ⟨fun _ => 0, 0⟩ ["3", "4"]
        = some (2, false, (Rng.randint ⟨fun _ => 4, 0⟩ 1 10).2, rest, tr)
      ∧ Trace.tOut (Msg.gameOver 2 ((Rng.randint ⟨fun _ => 4, 0⟩ 1 10).1)) ∈ tr
      ∧ ∀ t ∈ tr, (∃ j, 1 ≤ j ∧ j ≤ 2 ∧ t = Trace.tIn (attemptPrompt j))
          ∨ ∃ m, t = Trace.tOut m :=
  C2_attempt_limit.1 1 10 2 ⟨fun _ => 4, 0⟩ ⟨fun _ => 0, 0⟩ ["3", "4"]
    (by decide) (by decide) (by decide)

theorem C3_validated_reader_witness :
    get_valid_number "p" 1 10 ["5"] = some (5, [], [Trace.tIn "p"]) :=
  C3_validated_reader.2.1 "p" 1 10 "5" [] 5 (by decide) (by decide) (by decide)

theorem C4_score_update_invariant_witness :
    score_update true 3 "1" "Easy" [("1", 5)]
      = (dictSet [("1", 5)] "1" (3 : Int), true,
          [Trace.tOut (Msg.newBest "Easy" 3)]) :=
  C4_score_update_invariant.2.2.2.1 3 "1" "Easy" [("1", 5)] 5 (by decide) (by decide)

